import Mathlib

/-!
Verification development for `src/iconfig/rspolicy.py` of the
pulsesecure_idle_configs_checker repository: the resource-policy
dependency resolver (`_policy_parser`), the padder (`_policy_padding`),
the policy extractors (`resource_policy`, `resource_policy_w_parent`)
and the CSV row-emission loop of the `write_*_policies` methods,
shallowly embedded as pure Lean functions.
-/

/-- Code points of a string, in order.  Python compares strings
lexicographically by Unicode code point. -/
def strCodes (s : String) : List Nat := s.data.map Char.toNat

/-- Lexicographic less-or-equal on code-point lists (Python `<=` on the
underlying sequences). -/
def lexLe : List Nat → List Nat → Bool
  | [], _ => true
  | _ :: _, [] => false
  | a :: as, b :: bs =>
    if a < b then true
    else if b < a then false
    else lexLe as bs

/-- Python string comparison `a <= b`: lexicographic on code points. -/
def strLe (a b : String) : Bool := lexLe (strCodes a) (strCodes b)

/-- Model of Python `sorted` on a list of strings: a stable sort by the
lexicographic order.  Equal strings are identical, so any sort by
`strLe` computes the same list `sorted` does. -/
def pySorted (l : List String) : List String :=
  l.insertionSort (fun a b => strLe a b = true)

theorem lexLe_total : ∀ xs ys : List Nat, lexLe xs ys = true ∨ lexLe ys xs = true
  | [], _ => Or.inl rfl
  | _ :: _, [] => Or.inr rfl
  | a :: as, b :: bs => by
    by_cases h1 : a < b
    · exact Or.inl (by simp [lexLe, h1])
    · by_cases h2 : b < a
      · exact Or.inr (by simp [lexLe, h2, h1])
      · rcases lexLe_total as bs with h | h
        · exact Or.inl (by simp [lexLe, h1, h2, h])
        · exact Or.inr (by simp [lexLe, h1, h2, h])

theorem lexLe_trans : ∀ xs ys zs : List Nat,
    lexLe xs ys = true → lexLe ys zs = true → lexLe xs zs = true
  | [], _, _, _, _ => rfl
  | _ :: _, [], _, h1, _ => by simp [lexLe] at h1
  | _ :: _, _ :: _, [], _, h2 => by simp [lexLe] at h2
  | a :: as, b :: bs, c :: cs, h1, h2 => by
    simp only [lexLe] at h1 h2 ⊢
    by_cases hab : a < b
    · by_cases hbc : b < c
      · simp [show a < c by omega]
      · by_cases hcb : c < b
        · simp [hbc, hcb] at h2
        · have hbc' : b = c := by omega
          simp [show a < c by omega]
    · by_cases hba : b < a
      · simp [hab, hba] at h1
      · have hab' : a = b := by omega
        subst hab'
        by_cases hac : a < c
        · simp [hac]
        · by_cases hca : c < a
          · simp [hac, hca] at h2
          · simp only [hab, if_neg hab, if_neg hac, if_neg hca] at h1 h2 ⊢
            exact lexLe_trans as bs cs h1 h2

instance : IsTotal String (fun a b => strLe a b = true) :=
  ⟨fun a b => lexLe_total (strCodes a) (strCodes b)⟩

instance : IsTrans String (fun a b => strLe a b = true) :=
  ⟨fun a b c => lexLe_trans (strCodes a) (strCodes b) (strCodes c)⟩

theorem pySorted_sorted (l : List String) :
    List.Sorted (fun a b => strLe a b = true) (pySorted l) :=
  List.sorted_insertionSort _ l

theorem pySorted_length (l : List String) : (pySorted l).length = l.length :=
  List.length_insertionSort _ l

/-- `PolicyCategoryMap`: the per-category mapping from policy name to the
sorted list of role names, as produced by the extractors (a Python dict
modelled as an association list in insertion order). -/
abbrev PolicyCategoryMap := List (String × List String)

/-- `GroupPolicies`: the per-group mapping from category key to its
`PolicyCategoryMap` (`web_policies_`, `file_policies_`, ...). -/
abbrev GroupPolicies := List (String × PolicyCategoryMap)

/-- `RoleDependencyResult`: role name to category key to the list of
policy names found for that role (`result_roles` in `_policy_parser`). -/
abbrev RoleResult := List (String × List (String × List String))

/-- Inner loop of `_policy_parser` for one role and one category:
iterate the category's policies in order and append each policy name
whose role list contains the role (`{role,}.issubset(...)`). -/
def matchRole (role : String) : PolicyCategoryMap → List String
  | [] => []
  | (p, rs) :: rest =>
    if role ∈ rs then p :: matchRole role rest else matchRole role rest

/-- One role's pass over all category keys of the group in
`_policy_parser`: the `defaultdict` `result_` ends up with one entry per
category key (empty categories included, the CSV-header-integrity
access), in the group's iteration order. -/
def resolveRole (g : GroupPolicies) (role : String) : List (String × List String) :=
  g.map (fun ce => (ce.1, matchRole role ce.2))

/-- `result_roles` of `_policy_parser` before `_policy_padding` is
applied: one entry per idle role. -/
def preResult (g : GroupPolicies) (idle : List String) : RoleResult :=
  idle.map (fun r => (r, resolveRole g r))

/-- The lengths appended to `self.policy_length` during `_policy_parser`:
`len(result_[policy_type])` for each role and each category, in
role-major order. -/
def groupLengths (g : GroupPolicies) (idle : List String) : List Nat :=
  idle.flatMap (fun r => g.map (fun ce => (matchRole r ce.2).length))

/-- Python `max` over a list of naturals, with `0` as the (never used by
the embedding on the empty list) default. -/
def listMax : List Nat → Nat
  | [] => 0
  | x :: xs => xs.foldl Nat.max x

/-- `_policy_padding`: `max(self.policy_length)` raises `ValueError` on
an empty list (modelled as `Except.error ()`); when the max is non-zero
every list is sorted and, if shorter than the max, extended with
empty-string entries; when the max is zero the structure is returned
unchanged. -/
def policyPadding (policyLength : List Nat) (rs : RoleResult) : Except Unit RoleResult :=
  match policyLength with
  | [] => Except.error ()
  | x :: xs =>
    if xs.foldl Nat.max x ≠ 0 then
      Except.ok (rs.map (fun re => (re.1, re.2.map (fun ce =>
        (ce.1,
          if ce.2.length ≠ xs.foldl Nat.max x then
            pySorted ce.2 ++ List.replicate (xs.foldl Nat.max x - ce.2.length) ""
          else
            pySorted ce.2)))))
    else
      Except.ok rs

/-- `_policy_parser` run with `self.policy_length` holding `policyLength`
on entry: it appends the observed lengths and hands the result to
`_policy_padding`. -/
def policyParserFrom (policyLength : List Nat) (g : GroupPolicies)
    (idle : List String) : Except Unit RoleResult :=
  policyPadding (policyLength ++ groupLengths g idle) (preResult g idle)

/-- `_policy_parser` as invoked by every `write_*_policies` method: the
accumulator `self.policy_length` has just been reset to `[]`. -/
def policyParserRun (g : GroupPolicies) (idle : List String) : Except Unit RoleResult :=
  policyParserFrom [] g idle

/-- Python list indexing `l[i]`: raises `IndexError` out of range. -/
def pyIndex (l : List String) (i : Nat) : Except Unit String :=
  if h : i < l.length then Except.ok (l.get ⟨i, h⟩) else Except.error ()

/-- `_first_policy_length`: length of the first role's first category
list (`list(rs)[0]` then `list(...)[0]` raise `IndexError` when a level
is empty). -/
def firstPolicyLength (rs : RoleResult) : Except Unit Nat :=
  match rs with
  | [] => Except.error ()
  | (_, cats) :: _ =>
    match cats with
    | [] => Except.error ()
    | (_, l) :: _ => Except.ok l.length

/-- The inner row loop of a `write_*_policies` method for one role:
`roles = [role] + [" "] * (first_policy_length - 1)`, then one CSV row
per `item`, whose cells are `policy[category][item]` in the group's
fixed category order. -/
def roleRows (rs : RoleResult) (re : String × List (String × List String)) :
    Except Unit (List (List String)) := do
  let n ← firstPolicyLength rs
  let rolesCol := re.1 :: List.replicate (n - 1) " "
  (List.range n).mapM (fun item => do
    let head ← pyIndex rolesCol item
    let cells ← re.2.mapM (fun ce => pyIndex ce.2 item)
    pure (head :: cells))

/-- Data rows emitted by a `write_*_policies` method (header row and the
fixed column names aside): the method first resets `self.policy_length`
to `[]`, then runs `_policy_parser` on the group, then emits the rows
role by role. -/
def writeRows (policyLength : List Nat) (g : GroupPolicies)
    (idle : List String) : Except Unit (List (List String)) := do
  let policyLength : List Nat := []
  let rs ← policyParserFrom policyLength g idle
  let rowGroups ← rs.mapM (roleRows rs)
  pure rowGroups.flatten

/-- One policy element of the XML configuration, as seen through the
parser helpers of the repository's `api` module.
Modelled from the spec: `_element_find_value`, `_element_findall_values`
and `_handle_iterfind` are not under `src/`; the spec describes the
extractor as an external collaborator that reads, per policy element,
named scalar fields (`name`, `apply`, `parent-type`) and the list of
role names under the role field. -/
structure XmlPolicy where
  findValue : String → String
  findallValues : String → List String

/-- `resource_policy`: the dict comprehension keeps every policy whose
`apply` field is not `"all"` and maps its `name` to the sorted role
values (a Python dict modelled as the association list in element
order). -/
def resource_policy (elems : List XmlPolicy) (role_value : String) :
    List (String × List String) :=
  (elems.filter (fun p => p.findValue "apply" != "all")).map
    (fun p => (p.findValue "name", pySorted (p.findallValues role_value)))

/-- `resource_policy_w_parent`: as `resource_policy`, additionally
requiring `parent-type == "none"`. -/
def resource_policy_w_parent (elems : List XmlPolicy) (role_value : String) :
    List (String × List String) :=
  (elems.filter (fun p =>
      p.findValue "parent-type" == "none" && p.findValue "apply" != "all")).map
    (fun p => (p.findValue "name", pySorted (p.findallValues role_value)))

example :
    writeRows [3, 7] [("A", [("p1", ["roleX"]), ("p2", ["roleX"])]), ("B", [])]
        ["roleX"]
      = Except.ok [["roleX", "p1", ""], [" ", "p2", ""]] := rfl

theorem mem_matchRole (r p : String) (pm : PolicyCategoryMap) :
    p ∈ matchRole r pm ↔ ∃ rs, (p, rs) ∈ pm ∧ r ∈ rs := by
  induction pm with
  | nil => simp [matchRole]
  | cons hd tl ih =>
    obtain ⟨q, qs⟩ := hd
    by_cases h : r ∈ qs
    · simp only [matchRole, if_pos h, List.mem_cons, ih, Prod.mk.injEq]
      constructor
      · rintro (rfl | ⟨rs, h1, h2⟩)
        · exact ⟨qs, Or.inl ⟨rfl, rfl⟩, h⟩
        · exact ⟨rs, Or.inr h1, h2⟩
      · rintro ⟨rs, (⟨rfl, rfl⟩ | h1), h2⟩
        · exact Or.inl rfl
        · exact Or.inr ⟨rs, h1, h2⟩
    · simp only [matchRole, if_neg h, List.mem_cons, ih, Prod.mk.injEq]
      constructor
      · rintro ⟨rs, h1, h2⟩
        exact ⟨rs, Or.inr h1, h2⟩
      · rintro ⟨rs, (⟨rfl, rfl⟩ | h1), h2⟩
        · exact absurd h2 h
        · exact ⟨rs, h1, h2⟩

theorem mem_preResult_shape (g : GroupPolicies) (idle : List String) (r : String)
    (cats : List (String × List String)) (h : (r, cats) ∈ preResult g idle) :
    r ∈ idle ∧ cats = resolveRole g r := by
  obtain ⟨r2, hr2, heq⟩ := List.mem_map.1 h
  injection heq with h1 h2
  subst h1
  exact ⟨hr2, h2.symm⟩

theorem mem_resolveRole_shape (g : GroupPolicies) (r c : String) (l : List String)
    (h : (c, l) ∈ resolveRole g r) :
    ∃ pm, (c, pm) ∈ g ∧ l = matchRole r pm := by
  obtain ⟨ce, hce, heq⟩ := List.mem_map.1 h
  injection heq with h1 h2
  refine ⟨ce.2, ?_, h2.symm⟩
  rw [← h1]
  exact Prod.mk.eta ▸ hce

theorem length_mem_groupLengths (g : GroupPolicies) (idle : List String) (r : String)
    (cats : List (String × List String)) (c : String) (l : List String)
    (h1 : (r, cats) ∈ preResult g idle) (h2 : (c, l) ∈ cats) :
    l.length ∈ groupLengths g idle := by
  obtain ⟨hr, hcats⟩ := mem_preResult_shape g idle r cats h1
  subst hcats
  obtain ⟨pm, hpm, hl⟩ := mem_resolveRole_shape g r c l h2
  refine List.mem_flatMap.2 ⟨r, hr, ?_⟩
  refine List.mem_map.2 ⟨(c, pm), hpm, ?_⟩
  rw [hl]

theorem le_foldl_max_init : ∀ (xs : List Nat) (x : Nat), x ≤ xs.foldl Nat.max x := by
  intro xs
  induction xs with
  | nil => intro x; exact Nat.le_refl x
  | cons y ys ih =>
    intro x
    exact le_trans (Nat.le_max_left x y) (ih (Nat.max x y))

theorem mem_le_foldl_max : ∀ (xs : List Nat) (x a : Nat), a ∈ xs → a ≤ xs.foldl Nat.max x := by
  intro xs
  induction xs with
  | nil => intro x a h; cases h
  | cons y ys ih =>
    intro x a h
    rcases List.mem_cons.1 h with rfl | h
    · exact le_trans (Nat.le_max_right x a) (le_foldl_max_init ys (Nat.max x a))
    · exact ih (Nat.max x y) a h

theorem mem_le_listMax (a : Nat) (l : List Nat) (h : a ∈ l) : a ≤ listMax l := by
  cases l with
  | nil => cases h
  | cons x xs =>
    rcases List.mem_cons.1 h with rfl | h
    · exact le_foldl_max_init xs a
    · exact mem_le_foldl_max xs x a h

theorem foldl_max_le (c : Nat) : ∀ (xs : List Nat) (x : Nat),
    x ≤ c → (∀ a ∈ xs, a ≤ c) → xs.foldl Nat.max x ≤ c := by
  intro xs
  induction xs with
  | nil => intro x hx _; exact hx
  | cons y ys ih =>
    intro x hx h
    exact ih (Nat.max x y) (Nat.max_le.2 ⟨hx, h y (List.mem_cons_self y ys)⟩)
      (fun a ha => h a (List.mem_cons_of_mem y ha))

theorem pad_branch_eq (m : Nat) (l : List String) :
    (if l.length ≠ m then pySorted l ++ List.replicate (m - l.length) ""
     else pySorted l)
      = pySorted l ++ List.replicate (m - l.length) "" := by
  by_cases h : l.length ≠ m
  · rw [if_pos h]
  · rw [if_neg h]
    push_neg at h
    rw [h, Nat.sub_self, List.replicate_zero, List.append_nil]

theorem parserRun_ok_eq (g : GroupPolicies) (idle : List String) (rs : RoleResult)
    (hok : policyParserRun g idle = Except.ok rs) :
    rs = (preResult g idle).map (fun re => (re.1, re.2.map (fun ce =>
      (ce.1, pySorted ce.2 ++
        List.replicate (listMax (groupLengths g idle) - ce.2.length) "")))) := by
  unfold policyParserRun policyParserFrom at hok
  rw [List.nil_append] at hok
  cases hlens : groupLengths g idle with
  | nil =>
    rw [hlens] at hok
    exact absurd hok (by simp [policyPadding])
  | cons x xs =>
    rw [hlens] at hok
    simp only [policyPadding] at hok
    simp only [listMax]
    by_cases hm : xs.foldl Nat.max x ≠ 0
    · rw [if_pos hm] at hok
      injection hok with h
      rw [← h]
      refine List.map_congr_left (fun re hre => ?_)
      refine congrArg (fun z => (re.1, z)) ?_
      refine List.map_congr_left (fun ce hce => ?_)
      exact congrArg (fun z => (ce.1, z)) (pad_branch_eq (xs.foldl Nat.max x) ce.2)
    · rw [if_neg hm] at hok
      push_neg at hm
      injection hok with h
      rw [← h]
      refine Eq.symm ?_
      have hid : ∀ re ∈ preResult g idle,
          (re.1, re.2.map (fun ce =>
            (ce.1, pySorted ce.2 ++
              List.replicate (xs.foldl Nat.max x - ce.2.length) ""))) = re := by
        intro re hre
        have h2 : re.2.map (fun ce =>
            (ce.1, pySorted ce.2 ++
              List.replicate (xs.foldl Nat.max x - ce.2.length) "")) = re.2 := by
          have hid2 : ∀ ce ∈ re.2,
              (ce.1, pySorted ce.2 ++
                List.replicate (xs.foldl Nat.max x - ce.2.length) "") = ce := by
            intro ce hce
            have hmem : ce.2.length ∈ groupLengths g idle :=
              length_mem_groupLengths g idle re.1 re.2 ce.1 ce.2
                (Prod.mk.eta ▸ hre) (Prod.mk.eta ▸ hce)
            have hle : ce.2.length ≤ 0 := by
              have := mem_le_listMax ce.2.length (groupLengths g idle) hmem
              rw [hlens] at this
              simpa [listMax, hm] using this
            have hnil : ce.2 = [] := List.eq_nil_of_length_eq_zero (Nat.le_zero.1 hle)
            rw [hnil]
            have hz : pySorted ([] : List String) ++
                List.replicate (List.foldl Nat.max x xs - ([] : List String).length) ""
                  = ([] : List String) := by
              simp [pySorted, hm]
            rw [hz, ← hnil]
          calc re.2.map (fun ce =>
                (ce.1, pySorted ce.2 ++
                  List.replicate (xs.foldl Nat.max x - ce.2.length) ""))
              = re.2.map id := List.map_congr_left hid2
            _ = re.2 := List.map_id re.2
        calc (re.1, re.2.map (fun ce =>
              (ce.1, pySorted ce.2 ++
                List.replicate (xs.foldl Nat.max x - ce.2.length) "")))
            = (re.1, re.2) := congrArg (fun z => (re.1, z)) h2
          _ = re := Prod.mk.eta
      calc (preResult g idle).map (fun re =>
            (re.1, re.2.map (fun ce =>
              (ce.1, pySorted ce.2 ++
                List.replicate (xs.foldl Nat.max x - ce.2.length) ""))))
          = (preResult g idle).map id := List.map_congr_left hid
        _ = preResult g idle := List.map_id (preResult g idle)

theorem matchRole_eq_nil (r : String) (pm : PolicyCategoryMap)
    (h : ∀ pe ∈ pm, r ∉ pe.2) : matchRole r pm = [] := by
  induction pm with
  | nil => rfl
  | cons hd tl ih =>
    obtain ⟨q, qs⟩ := hd
    have hq : r ∉ qs := h (q, qs) (List.mem_cons_self _ _)
    simp only [matchRole, if_neg hq]
    exact ih (fun pe hpe => h pe (List.mem_cons_of_mem _ hpe))

theorem groupLengths_all_zero (g : GroupPolicies) (idle : List String)
    (hnone : ∀ r ∈ idle, ∀ ce ∈ g, ∀ pe ∈ ce.2, r ∉ pe.2) :
    ∀ a ∈ groupLengths g idle, a = 0 := by
  intro a ha
  obtain ⟨r, hr, hmem⟩ := List.mem_flatMap.1 ha
  obtain ⟨ce, hce, heq⟩ := List.mem_map.1 hmem
  rw [← heq, matchRole_eq_nil r ce.2 (fun pe hpe => hnone r hr ce hce pe hpe)]
  rfl

theorem groupLengths_ne_nil (g : GroupPolicies) (idle : List String)
    (hi : idle ≠ []) (hg : g ≠ []) : groupLengths g idle ≠ [] := by
  cases idle with
  | nil => exact absurd rfl hi
  | cons i is =>
    cases g with
    | nil => exact absurd rfl hg
    | cons ce ces => simp [groupLengths, List.flatMap_cons]

theorem groupLengths_nil_group (idle : List String) : groupLengths [] idle = [] := by
  induction idle with
  | nil => rfl
  | cons i is ih => simpa [groupLengths, List.flatMap_cons] using ih

/-- Claim C1: after `_policy_parser` resolves dependencies, the resolved
result has the entry for each idle role, that entry has the list for each
category of the group, and a policy name appears in the list for a
`(role, category)` pair iff that role is a member of that policy's role
set in the source category map. -/
theorem c1_membership (g : GroupPolicies) (idle : List String) (r c : String)
    (pm : PolicyCategoryMap) (p : String) (hr : r ∈ idle) (hc : (c, pm) ∈ g) :
    (r, resolveRole g r) ∈ preResult g idle ∧
    (c, matchRole r pm) ∈ resolveRole g r ∧
    (p ∈ matchRole r pm ↔ ∃ rs, (p, rs) ∈ pm ∧ r ∈ rs) :=
  ⟨List.mem_map.2 ⟨r, hr, rfl⟩, List.mem_map.2 ⟨(c, pm), hc, rfl⟩,
    mem_matchRole r p pm⟩

/-- Concrete instance of the hypotheses and conclusion of `c1_membership`. -/
theorem c1_membership_witness :
    ("r1", resolveRole [("A", [("p1", ["r1"])])] "r1")
        ∈ preResult [("A", [("p1", ["r1"])])] ["r1"] ∧
    ("A", matchRole "r1" [("p1", ["r1"])])
        ∈ resolveRole [("A", [("p1", ["r1"])])] "r1" := by
  have h := c1_membership [("A", [("p1", ["r1"])])] ["r1"] "r1" "A"
    [("p1", ["r1"])] "p1" (by decide) (by decide)
  exact ⟨h.1, h.2.1⟩

/-- Claim C3: for every `(role, category)` list, the padded output of
`_policy_parser` equals the lexicographic sort of the real policy names
followed by exactly `max_len - len` empty-string sentinels appended at
the end; a list already at `max_len` gets `replicate 0`, i.e. is only
sorted with nothing appended. -/
theorem c3_sorted_then_padded (g : GroupPolicies) (idle : List String)
    (rs : RoleResult) (hok : policyParserRun g idle = Except.ok rs) :
    rs = (preResult g idle).map (fun re => (re.1, re.2.map (fun ce =>
      (ce.1, pySorted ce.2 ++
        List.replicate (listMax (groupLengths g idle) - ce.2.length) "")))) :=
  parserRun_ok_eq g idle rs hok

/-- Concrete instance of the hypothesis and conclusion of
`c3_sorted_then_padded`. -/
theorem c3_sorted_then_padded_witness :
    [("r1", [("A", ["p1"]), ("B", [""])])]
      = (preResult [("A", [("p1", ["r1"])]), ("B", [])] ["r1"]).map
          (fun re => (re.1, re.2.map (fun ce =>
            (ce.1, pySorted ce.2 ++
              List.replicate
                (listMax (groupLengths [("A", [("p1", ["r1"])]), ("B", [])] ["r1"])
                  - ce.2.length) "")))) :=
  c3_sorted_then_padded [("A", [("p1", ["r1"])]), ("B", [])] ["r1"]
    [("r1", [("A", ["p1"]), ("B", [""])])] rfl

/-- Claim C2: after padding, every `(role, category)` list in the result
has length equal to the global maximum observed list length across all
roles and all categories of that run. -/
theorem c2_rectangular (g : GroupPolicies) (idle : List String) (rs : RoleResult)
    (r : String) (cats : List (String × List String)) (c : String) (l : List String)
    (hok : policyParserRun g idle = Except.ok rs)
    (h1 : (r, cats) ∈ rs) (h2 : (c, l) ∈ cats) :
    l.length = listMax (groupLengths g idle) := by
  have hrs := parserRun_ok_eq g idle rs hok
  subst hrs
  obtain ⟨re, hre, heq⟩ := List.mem_map.1 h1
  injection heq with e1 e2
  rw [← e2] at h2
  obtain ⟨ce, hce, heq2⟩ := List.mem_map.1 h2
  injection heq2 with f1 f2
  have hmem : ce.2.length ∈ groupLengths g idle :=
    length_mem_groupLengths g idle re.1 re.2 ce.1 ce.2
      (Prod.mk.eta ▸ hre) (Prod.mk.eta ▸ hce)
  have hle : ce.2.length ≤ listMax (groupLengths g idle) :=
    mem_le_listMax _ _ hmem
  rw [← f2, List.length_append, pySorted_length, List.length_replicate]
  omega

/-- Concrete instance of the hypotheses and conclusion of
`c2_rectangular`. -/
theorem c2_rectangular_witness :
    (["p1"] : List String).length
      = listMax (groupLengths [("A", [("p1", ["r1"])]), ("B", [])] ["r1"]) :=
  c2_rectangular [("A", [("p1", ["r1"])]), ("B", [])] ["r1"]
    [("r1", [("A", ["p1"]), ("B", [""])])] "r1" [("A", ["p1"]), ("B", [""])]
    "A" ["p1"] rfl (by decide) (by decide)

/-- Claim C4: before padding, the result built by `_policy_parser` has an
entry for every category key present in the group mapping, for every
idle role, even when that category's policy map is empty. -/
theorem c4_header_complete (g : GroupPolicies) (idle : List String) (r c : String)
    (hr : r ∈ idle) (hc : c ∈ g.map Prod.fst) :
    (r, resolveRole g r) ∈ preResult g idle ∧
    ∃ l, (c, l) ∈ resolveRole g r := by
  refine ⟨List.mem_map.2 ⟨r, hr, rfl⟩, ?_⟩
  obtain ⟨ce, hce, hceq⟩ := List.mem_map.1 hc
  refine ⟨matchRole r ce.2, List.mem_map.2 ⟨ce, hce, ?_⟩⟩
  rw [hceq]

/-- Concrete instance of the hypotheses and conclusion of
`c4_header_complete`: category `A` is empty yet present. -/
theorem c4_header_complete_witness :
    ("r1", resolveRole [("A", []), ("B", [("p1", ["r2"])])] "r1")
        ∈ preResult [("A", []), ("B", [("p1", ["r2"])])] ["r1"] ∧
    ∃ l, ("A", l) ∈ resolveRole [("A", []), ("B", [("p1", ["r2"])])] "r1" :=
  c4_header_complete [("A", []), ("B", [("p1", ["r2"])])] ["r1"] "r1" "A"
    (by decide) (by decide)

/-- Claim C5: with a non-empty idle-role set, at least one category, and
no idle role a member of any policy's role set, `_policy_parser` followed
by `_policy_padding` returns the resolved result unchanged, all lists
empty, without raising. -/
theorem c5_zero_case (g : GroupPolicies) (idle : List String)
    (hi : idle ≠ []) (hg : g ≠ [])
    (hnone : ∀ r ∈ idle, ∀ ce ∈ g, ∀ pe ∈ ce.2, r ∉ pe.2) :
    policyParserRun g idle = Except.ok (preResult g idle) ∧
    ∀ re ∈ preResult g idle, ∀ ce ∈ re.2, ce.2 = ([] : List String) := by
  constructor
  · have hz := groupLengths_all_zero g idle hnone
    have hne := groupLengths_ne_nil g idle hi hg
    unfold policyParserRun policyParserFrom
    rw [List.nil_append]
    cases hlens : groupLengths g idle with
    | nil => exact absurd hlens hne
    | cons x xs =>
      simp only [policyPadding]
      have hx : x = 0 := hz x (by rw [hlens]; exact List.mem_cons_self _ _)
      have hfold : xs.foldl Nat.max x = 0 := by
        refine Nat.le_zero.1 (foldl_max_le 0 xs x (by omega) ?_)
        intro a ha
        have := hz a (by rw [hlens]; exact List.mem_cons_of_mem _ ha)
        omega
      rw [if_neg (by simp [hfold])]
  · intro re hre ce hce
    obtain ⟨hr, hcats⟩ := mem_preResult_shape g idle re.1 re.2 (Prod.mk.eta ▸ hre)
    rw [hcats] at hce
    obtain ⟨pm, hpm, hl⟩ := mem_resolveRole_shape g re.1 ce.1 ce.2 (Prod.mk.eta ▸ hce)
    rw [hl]
    exact matchRole_eq_nil re.1 pm (fun pe hpe => hnone re.1 hr (ce.1, pm) hpm pe hpe)

/-- Concrete instance of the hypotheses and the first conclusion of
`c5_zero_case`: one idle role, one category, no match anywhere. -/
theorem c5_zero_case_witness :
    policyParserRun [("A", [("p1", ["r9"])])] ["r1"]
      = Except.ok (preResult [("A", [("p1", ["r9"])])] ["r1"]) :=
  (c5_zero_case [("A", [("p1", ["r9"])])] ["r1"]
    (by decide) (by decide) (by decide)).1

/-- Claim C6 as stated is false on the code: with an empty idle-role set
the accumulator is empty, `max(self.policy_length)` raises, and the
report-writing call errors before writing any row; here at a concrete
non-empty group. -/
theorem c6_claim_counterexample :
    writeRows [] [("A", [("p1", ["roleX"])])] [] = Except.error () := rfl

/-- Claim C6 (amended): for every group policy mapping and any prior
accumulator contents, a report-writing call with an empty idle-role set
raises an error (max of an empty length sequence) instead of producing a
zero-role-row report. -/
theorem c6_empty_idle_errors (policyLength : List Nat) (g : GroupPolicies) :
    writeRows policyLength g [] = Except.error () := rfl

/-- Claim C7: the concrete example: group
`{A: {p1: {roleX}, p2: {roleY}}, B: {}}`, idle roles `{roleX, roleY}`;
pre-pad result, max length `1`, and padded result are as the spec
states. -/
theorem c7_example :
    preResult [("A", [("p1", ["roleX"]), ("p2", ["roleY"])]), ("B", [])]
        ["roleX", "roleY"]
      = [("roleX", [("A", ["p1"]), ("B", [])]),
         ("roleY", [("A", ["p2"]), ("B", [])])] ∧
    listMax (groupLengths
        [("A", [("p1", ["roleX"]), ("p2", ["roleY"])]), ("B", [])]
        ["roleX", "roleY"]) = 1 ∧
    policyParserRun [("A", [("p1", ["roleX"]), ("p2", ["roleY"])]), ("B", [])]
        ["roleX", "roleY"]
      = Except.ok [("roleX", [("A", ["p1"]), ("B", [""])]),
                   ("roleY", [("A", ["p2"]), ("B", [""])])] :=
  ⟨rfl, rfl, rfl⟩

/-- Claim C8: every report-writing call re-initializes the
length-tracking accumulator (`self.policy_length = []`) before resolving
and padding, so its rows depend only on that call's group mapping and
idle-role set, whatever the accumulator held from earlier calls. -/
theorem c8_accumulator_reset (policyLength policyLength2 : List Nat)
    (g : GroupPolicies) (idle : List String) :
    writeRows policyLength g idle = writeRows policyLength2 g idle := rfl

/-- Claim C9: the extraction operations map each kept policy's name to
the sorted list of its role names; a policy is kept iff its `apply`
attribute is not `"all"`, and for the parent-scoped extractor
additionally only if its `parent-type` equals `"none"`; every produced
list is sorted. -/
theorem c9_extractors (elems : List XmlPolicy) (role_value n : String)
    (rs : List String) :
    ((n, rs) ∈ resource_policy elems role_value ↔
      ∃ p, p ∈ elems ∧ p.findValue "apply" ≠ "all" ∧
        n = p.findValue "name" ∧ rs = pySorted (p.findallValues role_value)) ∧
    ((n, rs) ∈ resource_policy_w_parent elems role_value ↔
      ∃ p, p ∈ elems ∧ p.findValue "parent-type" = "none" ∧
        p.findValue "apply" ≠ "all" ∧
        n = p.findValue "name" ∧ rs = pySorted (p.findallValues role_value)) ∧
    List.Sorted (fun a b => strLe a b = true) (pySorted rs) := by
  refine ⟨?_, ?_, pySorted_sorted rs⟩
  · simp only [resource_policy, List.mem_map, List.mem_filter, Prod.mk.injEq,
      bne_iff_ne, ne_eq]
    constructor
    · rintro ⟨p, ⟨hp, hq⟩, hn, hrs⟩
      exact ⟨p, hp, hq, hn.symm, hrs.symm⟩
    · rintro ⟨p, hp, hq, hn, hrs⟩
      exact ⟨p, ⟨hp, hq⟩, hn.symm, hrs.symm⟩
  · simp only [resource_policy_w_parent, List.mem_map, List.mem_filter,
      Prod.mk.injEq, Bool.and_eq_true, bne_iff_ne, ne_eq, beq_iff_eq]
    constructor
    · rintro ⟨p, ⟨hp, hq1, hq2⟩, hn, hrs⟩
      exact ⟨p, hp, hq1, hq2, hn.symm, hrs.symm⟩
    · rintro ⟨p, hp, hq1, hq2, hn, hrs⟩
      exact ⟨p, ⟨hp, hq1, hq2⟩, hn.symm, hrs.symm⟩

/-- Claim C10: with a non-empty idle-role set and a group mapping with no
category keys at all (the absent-subtree case where the group is set to
an empty collection), `_policy_parser` raises (max of an empty sequence)
instead of returning a result. -/
theorem c10_empty_group_raises (idle : List String) (h : idle ≠ []) :
    policyParserRun [] idle = Except.error () := by
  unfold policyParserRun policyParserFrom
  rw [List.nil_append, groupLengths_nil_group]
  rfl

/-- Concrete instance of the hypothesis and conclusion of
`c10_empty_group_raises`. -/
theorem c10_empty_group_raises_witness :
    (["r1"] : List String) ≠ [] ∧ policyParserRun [] ["r1"] = Except.error () :=
  ⟨by decide, c10_empty_group_raises ["r1"] (by decide)⟩
